import Mathlib

/-
Verification of the HTTP request-builder package (files constants.go,
request.go, client.go of FlorentinDUBOIS/go.util).

Modelling conventions:
  - Go strings and byte slices become lists of characters (`Str`); the
    percent-encoder expands a character to its UTF-8 bytes exactly as the
    Go standard library does.
  - Go maps (`map[Header]string`, `map[string]string`) become association
    lists with Go assignment semantics (`mapSet`: replace in place when the
    key is present, append otherwise).  Go map iteration order is
    unspecified; the list order is one fixed linearization of it.
  - External collaborators (the JSON and XML codecs, `http.StatusText`,
    and the HTTP transport) are passed to the embedded functions as
    explicit arguments: the repository treats them as opaque.
  - The stateful method `Request.Do` becomes a pure function returning the
    updated builder together with booleans recording which effects ran
    (transport invoked, response body drained, response body closed) and
    the returned error, mirroring the statement order of the source.
-/

set_option linter.unusedVariables false

namespace GoUtil

/-- Character sequence, modelling a Go string or byte slice. -/
abbrev Str := List Char

/-! ### Percent encoding, from net/url QueryEscape (external dependency of
request.go lines 139 and 144).  QueryEscape keeps ASCII alphanumerics and
the characters `-`, `_`, `.`, `~`, turns a space into `+`, and writes every
other character as `%XX` upper-case hex for each of its UTF-8 bytes. -/

/-- UTF-8 bytes of a character. -/
def utf8Bytes (c : Char) : List Nat :=
  let n := c.toNat
  if n < 128 then [n]
  else if n < 2048 then [192 + n / 64, 128 + n % 64]
  else if n < 65536 then [224 + n / 4096, 128 + (n / 64) % 64, 128 + n % 64]
  else [240 + n / 262144, 128 + (n / 4096) % 64, 128 + (n / 64) % 64, 128 + n % 64]

/-- Upper-case hexadecimal digit for a value below 16. -/
def hexUpper (n : Nat) : Char :=
  if n < 10 then Char.ofNat (48 + n) else Char.ofNat (55 + n)

/-- Characters that Go QueryEscape leaves unescaped. -/
def isUnescapedQueryChar (c : Char) : Bool :=
  c.isAlphanum || c = '-' || c = '_' || c = '.' || c = '~'

/-- Encoding of one character under Go QueryEscape. -/
def queryEscapeChar (c : Char) : Str :=
  if c = ' ' then ['+']
  else if isUnescapedQueryChar c then [c]
  else (utf8Bytes c).foldr (fun b acc => '%' :: hexUpper (b / 16) :: hexUpper (b % 16) :: acc) []

/-- Model of Go url.QueryEscape. -/
def QueryEscape (s : Str) : Str :=
  s.foldr (fun c acc => queryEscapeChar c ++ acc) []

/-! ### strings.Replace with count -1, from the Go standard library
(used at request.go line 144).  The recursion consumes fuel equal to the
length of the scanned list so that it stays structural and computable by
the kernel; `goReplaceAll` supplies exactly enough fuel.  A nonempty
pattern is matched leftmost and non-overlapping; an empty pattern makes Go
insert the replacement before every character and once at the end. -/

/-- Leftmost non-overlapping replacement of a nonempty pattern, with fuel. -/
def replaceFuel (old rep : Str) : Nat → Str → Str
  | _, [] => []
  | 0, s => s
  | fuel + 1, c :: cs =>
    if old.isPrefixOf (c :: cs) then
      rep ++ replaceFuel old rep fuel (cs.drop (old.length - 1))
    else
      c :: replaceFuel old rep fuel cs

/-- Behaviour of strings.Replace on the empty pattern. -/
def insertEverywhere (rep : Str) : Str → Str
  | [] => rep
  | c :: cs => rep ++ c :: insertEverywhere rep cs

/-- Model of strings.Replace(s, old, rep, -1). -/
def goReplaceAll (s old rep : Str) : Str :=
  if old = [] then insertEverywhere rep s else replaceFuel old rep s.length s

/-- Does `old` occur as a contiguous substring. -/
def occursIn (old : Str) : Str → Bool
  | [] => old.isEmpty
  | c :: cs => old.isPrefixOf (c :: cs) || occursIn old cs

/-! ### Go map model.  Assignment `m[k] = v` replaces the value of an
existing key in place and appends a fresh key; lookup returns the value of
the first (hence, for lists built by `mapSet`, the only) entry. -/

/-- Go map assignment on an association list. -/
def mapSet (m : List (String × String)) (k v : String) : List (String × String) :=
  if m.any (fun p => p.1 == k) then
    m.map (fun p => if p.1 == k then (k, v) else p)
  else
    m ++ [(k, v)]

/-- Go map lookup, distinguishing an absent key (the two-result form). -/
def mapGet (m : List (String × String)) (k : String) : Option String :=
  (m.find? (fun p => p.1 == k)).map (fun p => p.2)

/-- Go map lookup defaulting to the empty string, as http.Header.Get does. -/
def mapGetD (m : List (String × String)) (k : String) : String :=
  (mapGet m k).getD ""

/-! ### Constants, from constants.go. -/

def charsetUTF8 : String := "charset=UTF-8"

def MIMEApplicationJSON : String := "application/json"

def MIMEApplicationJSONCharsetUTF8 : String := MIMEApplicationJSON ++ "; " ++ charsetUTF8

def MIMEApplicationXML : String := "application/xml"

def MIMEApplicationXMLCharsetUTF8 : String := MIMEApplicationXML ++ "; " ++ charsetUTF8

def HeaderAuthorization : String := "Authorization"

def HeaderContentLength : String := "Content-Length"

def HeaderContentType : String := "Content-Type"

/-- Status type of constants.go line 134, an alias of the Go int. -/
abbrev Status := Int

/-- Status.IsSuccess, constants.go lines 152 to 155: the code is between
200 (inclusive) and 300 (exclusive). -/
def Status.IsSuccess (s : Status) : Bool :=
  decide (200 ≤ s) && decide (s < 300)

/-! ### The request builder, request.go. -/

/-- Request structure, request.go lines 18 to 25.  The bound context and
client carry no observable structure that the claims touch; they are kept
as opaque tokens so that frame conditions about them can be stated. -/
structure Request where
  headers : List (String × String)
  queryParams : List (String × String)
  pathParams : List (String × String)
  contextId : Nat
  clientId : Nat
  body : Option String
deriving DecidableEq

/-- NewRequest, request.go lines 28 to 41: empty maps, background context,
nil body. -/
def NewRequest (clientId : Nat) : Request :=
  { headers := [], queryParams := [], pathParams := [],
    contextId := 0, clientId := clientId, body := none }

/-- SetQueryParam, request.go lines 43 to 46. -/
def Request.SetQueryParam (r : Request) (name value : String) : Request :=
  { r with queryParams := mapSet r.queryParams name value }

/-- SetQueryParams, request.go lines 48 to 53: SetQueryParam per entry. -/
def Request.SetQueryParams (r : Request) (params : List (String × String)) : Request :=
  params.foldl (fun r p => r.SetQueryParam p.1 p.2) r

/-- SetPathParam, request.go lines 55 to 58. -/
def Request.SetPathParam (r : Request) (name value : String) : Request :=
  { r with pathParams := mapSet r.pathParams name value }

/-- SetPathParams, request.go lines 60 to 65. -/
def Request.SetPathParams (r : Request) (params : List (String × String)) : Request :=
  params.foldl (fun r p => r.SetPathParam p.1 p.2) r

/-- SetHeader, request.go lines 67 to 70. -/
def Request.SetHeader (r : Request) (name value : String) : Request :=
  { r with headers := mapSet r.headers name value }

/-- SetHeaders, request.go lines 72 to 77. -/
def Request.SetHeaders (r : Request) (headers : List (String × String)) : Request :=
  headers.foldl (fun r p => r.SetHeader p.1 p.2) r

/-- strings.Trim(token, " "): remove leading and trailing spaces. -/
def goTrimSpaces (s : Str) : Str :=
  ((s.dropWhile (fun c => c = ' ')).reverse.dropWhile (fun c => c = ' ')).reverse

/-- SetBearerToken, request.go lines 79 to 82. -/
def Request.SetBearerToken (r : Request) (token : String) : Request :=
  r.SetHeader HeaderAuthorization ("Bearer " ++ String.mk (goTrimSpaces token.data))

/-- SetBody, request.go lines 90 to 93. -/
def Request.SetBody (r : Request) (body : String) : Request :=
  { r with body := some body }

/-- Errors returned by marshal, unmarshall and Do.  Each constructor
records the values interpolated into the corresponding fmt.Errorf format
string of request.go:
  missingContentType          line 102, Content-Type is not defined;
  unsupportedSerialize v      line 111, serializing format v is not
                              supported, where v is the operand the code
                              passes to the percent-s verb;
  transport e                 line 160, the client error verbatim;
  httpStatus code text        line 165, http request failed with the
                              status code and its http.StatusText;
  missingResponseContentType  line 183, could not auto-detect response
                              format;
  unsupportedDeserialize m    line 127, deserializing format m is not
                              supported;
  decodeError e               codec failure propagated verbatim. -/
inductive DoError where
  | missingContentType : DoError
  | unsupportedSerialize (operand : String) : DoError
  | transport (msg : String) : DoError
  | httpStatus (code : Int) (text : String) : DoError
  | missingResponseContentType : DoError
  | unsupportedDeserialize (mime : String) : DoError
  | decodeError (msg : String) : DoError
deriving DecidableEq

/-- marshal, request.go lines 95 to 113.  The codecs json.Marshal and
xml.Marshal are external and arrive as the arguments jm and xm; a nil
body is an empty byte sequence; a missing Content-Type header on a
non-nil body is an error; the switch recognises exactly the four JSON and
XML MIME constants.  In the default branch the source interpolates the
body value, not the mime, into the message. -/
def Request.marshal (jm xm : String → Str) (r : Request) (val : Option String) :
    Except DoError Str :=
  match val with
  | none => .ok []
  | some v =>
    match mapGet r.headers HeaderContentType with
    | none => .error .missingContentType
    | some mime =>
      if mime = MIMEApplicationJSON ∨ mime = MIMEApplicationJSONCharsetUTF8 then
        .ok (jm v)
      else if mime = MIMEApplicationXML ∨ mime = MIMEApplicationXMLCharsetUTF8 then
        .ok (xm v)
      else
        .error (.unsupportedSerialize v)

/-- unmarshall, request.go lines 115 to 129.  Reading the in-memory buffer
always succeeds; the codecs json.Unmarshal and xml.Unmarshal are abstract
and report an error message or succeed. -/
def Request.unmarshall (jd xd : Str → Option String) (mime : String) (rbody : Str) :
    Except DoError Unit :=
  if mime = MIMEApplicationJSON ∨ mime = MIMEApplicationJSONCharsetUTF8 then
    match jd rbody with
    | none => .ok ()
    | some e => .error (.decodeError e)
  else if mime = MIMEApplicationXML ∨ mime = MIMEApplicationXMLCharsetUTF8 then
    match xd rbody with
    | none => .ok ()
    | some e => .error (.decodeError e)
  else
    .error (.unsupportedDeserialize mime)

/-- strings.Join with the ampersand separator, request.go line 142. -/
def joinAmp : List Str → Str
  | [] => []
  | [x] => x
  | x :: xs => x ++ '&' :: joinAmp xs

/-- Query string built at request.go lines 137 to 140: one k=v item per
query parameter, keys and values percent-encoded, joined with ampersands. -/
def queryString (queryParams : List (String × String)) : Str :=
  joinAmp (queryParams.map (fun p => QueryEscape p.1.data ++ '=' :: QueryEscape p.2.data))

/-- URL building of Do, request.go lines 137 to 145: append a question
mark and the query string, then replace every path parameter name by its
percent-encoded value throughout the resulting string. -/
def buildFinalURL (URL : String) (queryParams pathParams : List (String × String)) : Str :=
  let u := URL.data ++ '?' :: queryString queryParams
  pathParams.foldl (fun u p => goReplaceAll u p.1.data (QueryEscape p.2.data)) u

/-- An HTTP response as seen by Do: status code, header map, body bytes. -/
structure Response where
  statusCode : Int
  headers : List (String × String)
  rbody : Str
deriving DecidableEq

/-- The http.Request value handed to the client at request.go line 158,
after NewRequest, WithContext and the header-copying loop of lines 148 to
156. -/
structure PreparedRequest where
  method : String
  url : Str
  bodyBytes : Str
  headers : List (String × String)
  contextId : Nat
deriving DecidableEq

/-- Response handling of Do, request.go lines 163 to 186.  The two
booleans record whether the response body was drained (the io.Copy of
line 169) and closed (line 173) before returning.  A non-success status
returns at line 165, before either happens.  On the success path the
in-memory drain and close succeed, a nil out returns early, and otherwise
the response Content-Type header (empty when absent) selects the decoder. -/
def handleResponse (jd xd : Str → Option String) (statusText : Int → String)
    (res : Response) (hasOut : Bool) : Except DoError Unit × Bool × Bool :=
  if Status.IsSuccess res.statusCode = false then
    (.error (.httpStatus res.statusCode (statusText res.statusCode)), false, false)
  else if hasOut = false then
    (.ok (), true, true)
  else
    let val := mapGetD res.headers HeaderContentType
    if val = "" then
      (.error .missingResponseContentType, true, true)
    else
      (Request.unmarshall jd xd val res.rbody, true, true)

deriving instance DecidableEq for Except

/-- Everything observable about one call to Do: the builder after the
call, whether the transport was invoked, whether the response body was
drained and closed, and the returned error or success. -/
structure DoOutcome where
  builder : Request
  transportInvoked : Bool
  drained : Bool
  closed : Bool
  result : Except DoError Unit
deriving DecidableEq

/-- Do, request.go lines 131 to 187.  Marshal the body (early return on
error, before any network activity); build the final URL; write the
Content-Length header into the builder itself (line 147, the sole
mutation of the builder); hand the prepared request to the client; then
classify and decode the response.  http.NewRequest itself only fails on a
malformed method or URL, an external stdlib concern modelled as success. -/
def Request.Do (jm xm : String → Str) (jd xd : Str → Option String)
    (statusText : Int → String) (transport : PreparedRequest → Except String Response)
    (r : Request) (method URL : String) (hasOut : Bool) : DoOutcome :=
  match r.marshal jm xm r.body with
  | .error e =>
    { builder := r, transportInvoked := false, drained := false, closed := false,
      result := .error e }
  | .ok body =>
    let u := buildFinalURL URL r.queryParams r.pathParams
    let r' := { r with headers := mapSet r.headers HeaderContentLength (toString body.length) }
    let prepared : PreparedRequest :=
      { method := method, url := u, bodyBytes := body, headers := r'.headers,
        contextId := r.contextId }
    match transport prepared with
    | .error te =>
      { builder := r', transportInvoked := true, drained := false, closed := false,
        result := .error (.transport te) }
    | .ok res =>
      let out := handleResponse jd xd statusText res hasOut
      { builder := r', transportInvoked := true, drained := out.2.1, closed := out.2.2,
        result := out.1 }

/-! ### Lemmas about the replacement function. -/

/-- The fuel argument of replaceFuel is irrelevant once it covers the
length of the scanned list. -/
theorem replaceFuel_congr (old rep : Str) :
    ∀ f1 f2 s, s.length ≤ f1 → s.length ≤ f2 →
      replaceFuel old rep f1 s = replaceFuel old rep f2 s := by
  intro f1
  induction f1 with
  | zero =>
    intro f2 s h1 h2
    cases s with
    | nil => cases f2 <;> rfl
    | cons c cs => simp at h1
  | succ f ih =>
    intro f2 s h1 h2
    cases s with
    | nil => cases f2 <;> rfl
    | cons c cs =>
      cases f2 with
      | zero => simp at h2
      | succ f2 =>
        simp only [List.length_cons, Nat.add_le_add_iff_right] at h1 h2
        cases hp : old.isPrefixOf (c :: cs) with
        | true =>
          have hd : (cs.drop (old.length - 1)).length ≤ cs.length := by
            rw [List.length_drop]; omega
          simp only [replaceFuel, hp, if_true]
          rw [ih f2 _ (le_trans hd h1) (le_trans hd h2)]
        | false =>
          simp only [replaceFuel, hp, Bool.false_eq_true, if_false]
          rw [ih f2 cs h1 h2]

/-- Unfolding of goReplaceAll to an arbitrary sufficient fuel. -/
theorem goReplaceAll_eq_fuel (s old rep : Str) (f : Nat) (hne : old ≠ [])
    (hf : s.length ≤ f) : goReplaceAll s old rep = replaceFuel old rep f s := by
  unfold goReplaceAll
  rw [if_neg hne]
  exact replaceFuel_congr old rep s.length f s (Nat.le_refl _) hf

/-- A list is a prefix of itself extended on the right. -/
theorem isPrefixOf_append_self (old b : Str) : old.isPrefixOf (old ++ b) = true := by
  induction old with
  | nil => simp
  | cons o os ih => simp [List.isPrefixOf_cons₂, ih]

/-- A prefix is no longer than the list it opens. -/
theorem isPrefixOf_length_le (old t : Str) (h : old.isPrefixOf t = true) :
    old.length ≤ t.length := by
  induction old generalizing t with
  | nil => simp
  | cons o os ih =>
    cases t with
    | nil => simp [List.isPrefixOf] at h
    | cons c cs =>
      simp only [List.isPrefixOf_cons₂, Bool.and_eq_true] at h
      simpa using ih cs h.2

/-- Appending one character that does not occur in the pattern cannot
create or destroy a match at the front. -/
theorem isPrefixOf_append_single (old t : Str) (x : Char) (hx : x ∉ old) :
    old.isPrefixOf (t ++ [x]) = old.isPrefixOf t := by
  induction old generalizing t with
  | nil => simp
  | cons o os ih =>
    have hox : o ≠ x := by intro h; exact hx (h ▸ List.mem_cons_self o os)
    cases t with
    | nil =>
      simp [List.isPrefixOf, List.isPrefixOf_cons₂, hox]
    | cons c cs =>
      have : x ∉ os := fun h => hx (List.mem_cons_of_mem o h)
      simp [List.isPrefixOf_cons₂, ih cs this]

/-- A pattern that occurs nowhere leaves the scan unchanged. -/
theorem replaceFuel_of_not_occurs (old rep : Str) :
    ∀ f s, s.length ≤ f → occursIn old s = false → replaceFuel old rep f s = s := by
  intro f
  induction f with
  | zero =>
    intro s h1 _
    cases s with
    | nil => rfl
    | cons c cs => simp at h1
  | succ f ih =>
    intro s h1 h2
    cases s with
    | nil => rfl
    | cons c cs =>
      simp only [occursIn, Bool.or_eq_false_iff] at h2
      simp only [replaceFuel, h2.1, Bool.false_eq_true, if_false]
      rw [ih cs (by simp at h1; omega) h2.2]

/-- The leftmost occurrence of the pattern is replaced and the scan
continues after it. -/
theorem replaceFuel_split (old rep b : Str) (hne : old ≠ []) :
    ∀ a f, (a ++ old ++ b).length ≤ f →
      (∀ j, j < a.length → old.isPrefixOf ((a ++ old ++ b).drop j) = false) →
      replaceFuel old rep f (a ++ old ++ b) = a ++ rep ++ replaceFuel old rep f b := by
  intro a
  induction a with
  | nil =>
    intro f hf hj
    obtain ⟨o, os, rfl⟩ : ∃ o os, old = o :: os := by
      cases old with
      | nil => exact absurd rfl hne
      | cons o os => exact ⟨o, os, rfl⟩
    simp only [List.nil_append] at hf ⊢
    cases f with
    | zero => simp at hf
    | succ f =>
      have hcons : (o :: os) ++ b = o :: (os ++ b) := rfl
      rw [hcons]
      simp only [replaceFuel, ← hcons, isPrefixOf_append_self, if_true]
      have hdrop : (os ++ b).drop ((o :: os).length - 1) = b := by
        simp only [List.length_cons, Nat.add_sub_cancel]
        exact List.drop_left os b
      rw [hdrop]
      have hb : b.length ≤ f := by
        simp only [List.length_append, List.length_cons] at hf; omega
      rw [replaceFuel_congr (o :: os) rep f (f + 1) b hb (by omega)]
  | cons c a' ih =>
    intro f hf hj
    have hcons : (c :: a') ++ old ++ b = c :: (a' ++ old ++ b) := rfl
    cases f with
    | zero => rw [hcons] at hf; simp at hf
    | succ f =>
      have h0 : old.isPrefixOf ((c :: a') ++ old ++ b) = false := by
        simpa using hj 0 (by simp)
      rw [hcons] at h0 ⊢
      simp only [replaceFuel, h0, Bool.false_eq_true, if_false]
      have hf' : (a' ++ old ++ b).length ≤ f := by
        rw [hcons] at hf; simp only [List.length_cons] at hf; omega
      have hj' : ∀ j, j < a'.length → old.isPrefixOf ((a' ++ old ++ b).drop j) = false := by
        intro j hjlt
        have := hj (j + 1) (by simp; omega)
        rwa [hcons, List.drop_succ_cons] at this
      rw [ih f hf' hj']
      have hb : b.length ≤ f := by
        simp only [List.length_append] at hf'; omega
      rw [replaceFuel_congr old rep f (f + 1) b hb (by omega)]
      simp

/-- A trailing character that does not occur in the pattern survives the
scan at the very end. -/
theorem replaceFuel_append_last (old rep : Str) (x : Char) (hne : old ≠ []) (hx : x ∉ old) :
    ∀ f s, s.length < f → replaceFuel old rep f (s ++ [x]) = replaceFuel old rep f s ++ [x] := by
  intro f
  induction f with
  | zero => intro s h; omega
  | succ f ih =>
    intro s hs
    cases s with
    | nil =>
      have hpx : old.isPrefixOf [x] = false := by
        rw [show ([x] : Str) = [] ++ [x] from rfl, isPrefixOf_append_single old [] x hx]
        cases old with
        | nil => exact absurd rfl hne
        | cons o os => rfl
      simp only [List.nil_append, replaceFuel, hpx, Bool.false_eq_true, if_false]
    | cons c cs =>
      have hcons : (c :: cs) ++ [x] = c :: (cs ++ [x]) := rfl
      rw [hcons]
      have hcond : old.isPrefixOf (c :: (cs ++ [x])) = old.isPrefixOf (c :: cs) := by
        rw [← hcons]
        exact isPrefixOf_append_single old (c :: cs) x hx
      cases hp : old.isPrefixOf (c :: cs) with
      | true =>
        have hlen : old.length ≤ cs.length + 1 := by
          simpa using isPrefixOf_length_le old (c :: cs) hp
        simp only [replaceFuel, hcond, hp, if_true]
        have hdrop : (cs ++ [x]).drop (old.length - 1) = cs.drop (old.length - 1) ++ [x] := by
          rw [List.drop_append_eq_append_drop]
          have : old.length - 1 - cs.length = 0 := by omega
          rw [this]
          rfl
        rw [hdrop]
        have hdl : (cs.drop (old.length - 1)).length < f := by
          rw [List.length_drop]
          simp only [List.length_cons] at hs
          omega
        rw [ih _ hdl, List.append_assoc]
      | false =>
        simp only [replaceFuel, hcond, hp, Bool.false_eq_true, if_false]
        have : cs.length < f := by simp only [List.length_cons] at hs; omega
        rw [ih cs this]
        rfl

/-- Absent pattern: goReplaceAll is the identity. -/
theorem goReplaceAll_of_not_occurs (s old rep : Str) (hne : old ≠ [])
    (h : occursIn old s = false) : goReplaceAll s old rep = s := by
  rw [goReplaceAll_eq_fuel s old rep s.length hne (Nat.le_refl _)]
  exact replaceFuel_of_not_occurs old rep s.length s (Nat.le_refl _) h

/-- Leftmost occurrence: goReplaceAll substitutes it and recurses on the
remainder. -/
theorem goReplaceAll_split (a old b rep : Str) (hne : old ≠ [])
    (hleft : ∀ j, j < a.length → old.isPrefixOf ((a ++ old ++ b).drop j) = false) :
    goReplaceAll (a ++ old ++ b) old rep = a ++ rep ++ goReplaceAll b old rep := by
  rw [goReplaceAll_eq_fuel (a ++ old ++ b) old rep (a ++ old ++ b).length hne (Nat.le_refl _)]
  rw [replaceFuel_split old rep b hne a (a ++ old ++ b).length (Nat.le_refl _) hleft]
  rw [goReplaceAll_eq_fuel b old rep (a ++ old ++ b).length hne (by simp; omega)]

/-- A trailing character foreign to the pattern is preserved. -/
theorem goReplaceAll_append_last (s old rep : Str) (x : Char) (hne : old ≠ [])
    (hx : x ∉ old) : goReplaceAll (s ++ [x]) old rep = goReplaceAll s old rep ++ [x] := by
  rw [goReplaceAll_eq_fuel (s ++ [x]) old rep (s.length + 1) hne (by simp)]
  rw [replaceFuel_append_last old rep x hne hx (s.length + 1) s (by omega)]
  rw [goReplaceAll_eq_fuel s old rep (s.length + 1) hne (by omega)]

/-! ### Lemmas about the Go map model. -/

/-- Assignment for a key different from the head commutes with the head. -/
theorem mapSet_cons_ne (a b k v : String) (m : List (String × String)) (h : a ≠ k) :
    mapSet ((a, b) :: m) k v = (a, b) :: mapSet m k v := by
  have hab : ((a, b).1 == k) = false := by simpa using h
  cases hm : m.any (fun p => p.1 == k) with
  | true =>
    simp only [mapSet, List.any_cons, hab, Bool.false_or, hm, if_true, List.map_cons,
      Bool.false_eq_true, if_false]
  | false =>
    simp only [mapSet, List.any_cons, hab, Bool.false_or, hm, Bool.false_eq_true, if_false,
      List.cons_append]

/-- Assignment for the head key substitutes in place. -/
theorem mapSet_cons_eq (b k v : String) (m : List (String × String)) :
    mapSet ((k, b) :: m) k v =
      (k, v) :: m.map (fun p => if p.1 == k then (k, v) else p) := by
  simp [mapSet]

/-- Lookup after assignment finds the assigned value. -/
theorem mapGet_mapSet_self (m : List (String × String)) (k v : String) :
    mapGet (mapSet m k v) k = some v := by
  induction m with
  | nil => simp [mapSet, mapGet]
  | cons p m ih =>
    obtain ⟨a, b⟩ := p
    by_cases h : a = k
    · subst h
      rw [mapSet_cons_eq]
      simp [mapGet]
    · rw [mapSet_cons_ne a b k v m h]
      have : ((a, b).1 == k) = false := by simpa using h
      simpa [mapGet, List.find?, this] using ih

/-- In a list whose keys avoid k, substitution for k touches nothing and
the filter for k is empty. -/
theorem filter_subst_of_not_mem (m : List (String × String)) (k v : String)
    (h : k ∉ m.map Prod.fst) :
    (m.map (fun p => if p.1 == k then (k, v) else p)).filter (fun p => p.1 == k) = [] := by
  induction m with
  | nil => rfl
  | cons p m ih =>
    obtain ⟨a, b⟩ := p
    simp only [List.map_cons, List.mem_cons] at h
    push_neg at h
    have ha : ((a, b).1 == k) = false := by
      simp only [Prod.fst]
      simpa using fun e => h.1 e.symm
    simp only [List.map_cons, ha, Bool.false_eq_true, if_false, List.filter_cons, ha]
    exact ih h.2

/-- With unique keys, assignment leaves exactly one entry for the key,
holding the assigned value. -/
theorem filter_mapSet_self (m : List (String × String)) (k v : String)
    (h : (m.map Prod.fst).Nodup) :
    (mapSet m k v).filter (fun p => p.1 == k) = [(k, v)] := by
  induction m with
  | nil => simp [mapSet]
  | cons p m ih =>
    obtain ⟨a, b⟩ := p
    simp only [List.map_cons, List.nodup_cons] at h
    by_cases hak : a = k
    · subst hak
      rw [mapSet_cons_eq]
      simp only [List.filter_cons, beq_self_eq_true, if_true]
      rw [filter_subst_of_not_mem m a v h.1]
    · rw [mapSet_cons_ne a b k v m hak]
      have ha : ((a, b).1 == k) = false := by simpa using hak
      simp only [List.filter_cons, ha, Bool.false_eq_true, if_false]
      exact ih h.2

/-- Substitution of the value at one key does not change the key list. -/
theorem map_fst_subst (m : List (String × String)) (k v : String) :
    (m.map (fun p => if p.1 == k then (k, v) else p)).map Prod.fst = m.map Prod.fst := by
  induction m with
  | nil => rfl
  | cons p m ihm =>
    obtain ⟨a, b⟩ := p
    by_cases hak : a = k
    · subst hak
      simp only [List.map_cons, beq_self_eq_true, if_true]
      rw [ihm]
    · have ha : ((a, b).1 == k) = false := by simpa using hak
      simp only [List.map_cons, ha, Bool.false_eq_true, if_false]
      rw [ihm]

/-- Assignment preserves uniqueness of keys. -/
theorem nodup_keys_mapSet (m : List (String × String)) (k v : String)
    (h : (m.map Prod.fst).Nodup) : ((mapSet m k v).map Prod.fst).Nodup := by
  unfold mapSet
  cases hm : m.any (fun p => p.1 == k) with
  | true =>
    simp only [if_true]
    rw [map_fst_subst m k v]
    exact h
  | false =>
    simp only [Bool.false_eq_true, if_false]
    have hk : k ∉ m.map Prod.fst := by
      intro hmem
      obtain ⟨p, hp, hfst⟩ := List.mem_map.mp hmem
      have := List.any_eq_false.mp hm p hp
      simp [hfst] at this
    simp only [List.map_append, List.map_cons, List.map_nil]
    rw [List.nodup_append]
    refine ⟨h, List.nodup_singleton k, ?_⟩
    intro y hy hy'
    simp only [List.mem_singleton] at hy'
    exact hk (hy' ▸ hy)

/-- Folding the substitution step over path parameters whose names are
nonempty and free of the trailing character preserves that character at
the very end. -/
theorem foldl_replace_keeps_last (pps : List (String × String)) :
    ∀ u : Str, (∀ p ∈ pps, p.1.data ≠ [] ∧ '?' ∉ p.1.data) →
      ∃ w : Str,
        pps.foldl (fun u p => goReplaceAll u p.1.data (QueryEscape p.2.data)) (u ++ ['?']) =
          w ++ ['?'] := by
  induction pps with
  | nil => intro u _; exact ⟨u, rfl⟩
  | cons p pps ih =>
    intro u hok
    have hp := hok p (List.mem_cons_self p pps)
    simp only [List.foldl_cons]
    rw [goReplaceAll_append_last u p.1.data (QueryEscape p.2.data) '?' hp.1 hp.2]
    exact ih (goReplaceAll u p.1.data (QueryEscape p.2.data))
      (fun q hq => hok q (List.mem_cons_of_mem p hq))

/-! ### The claims. -/

/-- C1: evaluation of Do at a failing input.  A transport returning status
404 makes Do return the httpStatus error carrying the numeric code and its
textual reason, but with drained and closed both false: the source returns
at request.go line 165 before the io.Copy of line 169 and the Close of
line 173 ever run, so the claimed drain and connection release do not
happen on the error path.  (The other half of the claim, that a 2xx status
never produces an httpStatus error, does hold: handleResponse only builds
that error in its non-success branch.) -/
theorem c1_http_status_error_skips_drain :
    Request.Do (fun _ => []) (fun _ => []) (fun _ => none) (fun _ => none)
        (fun c => if c = 404 then "Not Found" else "")
        (fun _ => .ok { statusCode := 404, headers := [], rbody := [] })
        (NewRequest 0) "GET" "http://h" true =
      { builder := { NewRequest 0 with headers := [("Content-Length", "0")] },
        transportInvoked := true, drained := false, closed := false,
        result := .error (.httpStatus 404 "Not Found") } := by
  decide

/-- C2: a request carrying a body but no Content-Type header fails with
the missing-content-type error and the transport is never invoked, for
every codec, transport, method, URL and output sink. -/
theorem c2_missing_content_type_no_network
    (jm xm : String → Str) (jd xd : Str → Option String) (statusText : Int → String)
    (transport : PreparedRequest → Except String Response)
    (r : Request) (method URL : String) (hasOut : Bool) (v : String)
    (hbody : r.body = some v)
    (hct : mapGet r.headers HeaderContentType = none) :
    (Request.Do jm xm jd xd statusText transport r method URL hasOut).result =
        .error .missingContentType
    ∧ (Request.Do jm xm jd xd statusText transport r method URL hasOut).transportInvoked
        = false := by
  have hm : r.marshal jm xm r.body = .error .missingContentType := by
    rw [hbody]
    simp [Request.marshal, hct]
  constructor <;> simp [Request.Do, hm]

/-- Witness for C2 at a concrete request with a body and no header. -/
theorem c2_witness :
    (((NewRequest 0).SetBody "x").body = some "x")
    ∧ (mapGet ((NewRequest 0).SetBody "x").headers HeaderContentType = none)
    ∧ ((Request.Do (fun _ => []) (fun _ => []) (fun _ => none) (fun _ => none)
          (fun _ => "") (fun _ => .ok { statusCode := 200, headers := [], rbody := [] })
          ((NewRequest 0).SetBody "x") "GET" "http://h" false).result =
        .error .missingContentType
      ∧ (Request.Do (fun _ => []) (fun _ => []) (fun _ => none) (fun _ => none)
          (fun _ => "") (fun _ => .ok { statusCode := 200, headers := [], rbody := [] })
          ((NewRequest 0).SetBody "x") "GET" "http://h" false).transportInvoked = false) :=
  ⟨by decide, by decide,
    c2_missing_content_type_no_network _ _ _ _ _ _ _ _ _ _ "x" (by decide) (by decide)⟩

/-- C3: evaluation of marshal at a failing input.  With body value b and
Content-Type text/plain, the default branch of the switch at request.go
line 111 interpolates the body value, not the configured content type,
into the unsupported-format message: the recorded operand is the body b
and differs from the configured type, so the message does not name the
content type as claimed. -/
theorem c3_unsupported_format_names_body :
    Request.marshal (fun _ => []) (fun _ => [])
        ((NewRequest 0).SetHeader HeaderContentType "text/plain") (some "b") =
      .error (.unsupportedSerialize "b")
    ∧ mapGet ((NewRequest 0).SetHeader HeaderContentType "text/plain").headers
        HeaderContentType = some "text/plain"
    ∧ ("b" : String) ≠ "text/plain" := by
  decide

/-- C4: the final URL built by Do for a builder holding one path
parameter is exactly the literal global replacement of the parameter name
by the percent-encoded value in the URL being built (the target URL with
the query suffix already appended).  The further conjuncts pin down that
goReplaceAll really is literal substring replacement of every occurrence:
a pattern occurring nowhere changes nothing, and at the leftmost match the
pattern is excised, the replacement inserted, and the scan continues on
the remainder, wherever in the URL that match sits. -/
theorem c4_path_param_literal_substitution
    (URL n v : String) (qs : List (String × String)) (s a b old rep : Str)
    (hne : old ≠ [])
    (habs : occursIn old s = false)
    (hleft : ∀ j, j < a.length → old.isPrefixOf ((a ++ old ++ b).drop j) = false) :
    buildFinalURL URL qs [(n, v)] =
        goReplaceAll (URL.data ++ '?' :: queryString qs) n.data (QueryEscape v.data)
    ∧ goReplaceAll s old rep = s
    ∧ goReplaceAll (a ++ old ++ b) old rep = a ++ rep ++ goReplaceAll b old rep :=
  ⟨rfl, goReplaceAll_of_not_occurs s old rep hne habs,
    goReplaceAll_split a old b rep hne hleft⟩

/-- Witness for C4: a parameter name that also occurs in the middle of
other text is replaced there as well. -/
theorem c4_witness :
    ((":id".data : Str) ≠ [])
    ∧ occursIn (":id".data) ("xyz".data) = false
    ∧ (∀ j, j < ("z".data : Str).length →
        (":id".data : Str).isPrefixOf (("z".data ++ ":id".data ++ "cd".data).drop j) = false)
    ∧ (buildFinalURL "http://h/:id" [("q", "1")] [(":id", "a b")] =
        goReplaceAll ("http://h/:id".data ++ '?' :: queryString [("q", "1")]) (":id".data)
          (QueryEscape ("a b".data))
      ∧ goReplaceAll ("xyz".data) (":id".data) ("Q".data) = "xyz".data
      ∧ goReplaceAll ("z".data ++ ":id".data ++ "cd".data) (":id".data) ("Q".data) =
          "z".data ++ "Q".data ++ goReplaceAll ("cd".data) (":id".data) ("Q".data)) :=
  ⟨by decide, by decide, by decide,
    c4_path_param_literal_substitution "http://h/:id" ":id" "a b" [("q", "1")] ("xyz".data)
      ("z".data) ("cd".data) (":id".data) ("Q".data) (by decide) (by decide) (by decide)⟩

/-- C5: setting the same query parameter name twice keeps exactly one
entry, holding the later value, both through SetQueryParam and through
SetQueryParams, on any builder whose query keys are unique (as they are
for every builder built from NewRequest). -/
theorem c5_set_query_param_overwrites (r : Request) (n v1 v2 : String)
    (h : (r.queryParams.map Prod.fst).Nodup) :
    (((r.SetQueryParam n v1).SetQueryParam n v2).queryParams.filter
        (fun p => p.1 == n) = [(n, v2)])
    ∧ (((r.SetQueryParam n v1).SetQueryParams [(n, v2)]).queryParams.filter
        (fun p => p.1 == n) = [(n, v2)]) := by
  have h1 : (((r.SetQueryParam n v1).queryParams).map Prod.fst).Nodup :=
    nodup_keys_mapSet r.queryParams n v1 h
  exact ⟨filter_mapSet_self _ n v2 h1, filter_mapSet_self _ n v2 h1⟩

/-- Witness for C5 on a concrete builder already holding another key. -/
theorem c5_witness :
    ((((NewRequest 0).SetQueryParam "a" "0").queryParams.map Prod.fst).Nodup)
    ∧ (((((NewRequest 0).SetQueryParam "a" "0").SetQueryParam "n" "v1").SetQueryParam
          "n" "v2").queryParams.filter (fun p => p.1 == "n") = [("n", "v2")]
      ∧ ((((NewRequest 0).SetQueryParam "a" "0").SetQueryParam "n" "v1").SetQueryParams
          [("n", "v2")]).queryParams.filter (fun p => p.1 == "n") = [("n", "v2")]) :=
  ⟨by decide,
    c5_set_query_param_overwrites ((NewRequest 0).SetQueryParam "a" "0") "n" "v1" "v2"
      (by decide)⟩

/-- C6: Status.IsSuccess holds exactly for the codes from 200 inclusive to
300 exclusive. -/
theorem c6_is_success_iff (s : Status) :
    Status.IsSuccess s = true ↔ (200 ≤ s ∧ s < 300) := by
  simp [Status.IsSuccess]

/-- C7: a nil body marshals to the empty byte sequence and succeeds, for
every request (in particular one with no Content-Type header) and every
codec. -/
theorem c7_nil_body_marshals_empty (jm xm : String → Str) (r : Request) :
    r.marshal jm xm none = .ok [] := rfl

/-- C8: SetBearerToken is exactly SetHeader of Authorization with the
string Bearer-space followed by the token with surrounding spaces
trimmed; afterwards that header reads back with this value, and every
other field of the builder is untouched. -/
theorem c8_set_bearer_token (r : Request) (t : String) :
    r.SetBearerToken t =
        r.SetHeader HeaderAuthorization ("Bearer " ++ String.mk (goTrimSpaces t.data))
    ∧ mapGet (r.SetBearerToken t).headers HeaderAuthorization =
        some ("Bearer " ++ String.mk (goTrimSpaces t.data))
    ∧ (r.SetBearerToken t).queryParams = r.queryParams
    ∧ (r.SetBearerToken t).pathParams = r.pathParams
    ∧ (r.SetBearerToken t).body = r.body
    ∧ (r.SetBearerToken t).contextId = r.contextId
    ∧ (r.SetBearerToken t).clientId = r.clientId :=
  ⟨rfl, mapGet_mapSet_self r.headers HeaderAuthorization _, rfl, rfl, rfl, rfl, rfl⟩

/-- C9 counterexample: a call to Do on a builder whose marshal step fails
(body set, no Content-Type) returns with the builder completely
unchanged and no Content-Length header written, so not every call to Do
mutates the builder. -/
theorem c9_counterexample :
    ((Request.Do (fun _ => []) (fun _ => []) (fun _ => none) (fun _ => none) (fun _ => "")
        (fun _ => .ok { statusCode := 200, headers := [], rbody := [] })
        ((NewRequest 0).SetBody "x") "GET" "http://h" false).builder =
      (NewRequest 0).SetBody "x")
    ∧ mapGet ((Request.Do (fun _ => []) (fun _ => []) (fun _ => none) (fun _ => none)
        (fun _ => "") (fun _ => .ok { statusCode := 200, headers := [], rbody := [] })
        ((NewRequest 0).SetBody "x") "GET" "http://h" false).builder).headers
        HeaderContentLength = none := by
  decide

/-- C9 as amended: whenever the marshal step succeeds, Do writes the
Content-Length header, valued at the byte length of the marshaled body,
into the builder itself, and changes nothing else in the builder (the
update equation touches only the headers field); the header then reads
back with that value. -/
theorem c9_content_length_when_marshal_succeeds
    (jm xm : String → Str) (jd xd : Str → Option String) (statusText : Int → String)
    (transport : PreparedRequest → Except String Response)
    (r : Request) (method URL : String) (hasOut : Bool) (body : Str)
    (h : r.marshal jm xm r.body = .ok body) :
    (Request.Do jm xm jd xd statusText transport r method URL hasOut).builder =
        { r with headers := mapSet r.headers HeaderContentLength (toString body.length) }
    ∧ mapGet (Request.Do jm xm jd xd statusText transport r method URL hasOut).builder.headers
        HeaderContentLength = some (toString body.length) := by
  have hb : (Request.Do jm xm jd xd statusText transport r method URL hasOut).builder =
      { r with headers := mapSet r.headers HeaderContentLength (toString body.length) } := by
    simp only [Request.Do, h]
    split <;> rfl
  refine ⟨hb, ?_⟩
  rw [hb]
  exact mapGet_mapSet_self r.headers HeaderContentLength (toString body.length)

/-- Witness for C9 on a concrete builder with a nil body. -/
theorem c9_witness :
    ((NewRequest 0).marshal (fun _ => []) (fun _ => []) (NewRequest 0).body = .ok [])
    ∧ ((Request.Do (fun _ => []) (fun _ => []) (fun _ => none) (fun _ => none) (fun _ => "")
          (fun _ => .ok { statusCode := 200, headers := [], rbody := [] })
          (NewRequest 0) "GET" "http://h" false).builder =
        { NewRequest 0 with
            headers := mapSet (NewRequest 0).headers HeaderContentLength
              (toString (List.length ([] : Str))) }
      ∧ mapGet (Request.Do (fun _ => []) (fun _ => []) (fun _ => none) (fun _ => none)
          (fun _ => "") (fun _ => .ok { statusCode := 200, headers := [], rbody := [] })
          (NewRequest 0) "GET" "http://h" false).builder.headers HeaderContentLength =
          some (toString (List.length ([] : Str)))) :=
  ⟨rfl,
    c9_content_length_when_marshal_succeeds _ _ _ _ _ _ (NewRequest 0) "GET" "http://h"
      false [] rfl⟩

/-- C10 counterexample: with zero query parameters but a path parameter
whose name is the question mark itself, the substitution step rewrites
the appended question mark, so the final URL does not end with one. -/
theorem c10_counterexample :
    buildFinalURL "http://h" [] [("?", "x")] = ("http://hx").data
    ∧ (buildFinalURL "http://h" [] [("?", "x")]).getLast? ≠ some '?' := by
  decide

/-- C10 as amended: Do always appends the question mark (and the query
string, empty here) to the URL before path-parameter substitution, also
with zero query parameters; and the final URL of a request with no query
parameters ends with a bare question mark whenever no path parameter name
is empty or contains a question mark (otherwise the substitution step can
rewrite the appended mark, as the counterexample shows). -/
theorem c10_question_mark_before_substitution (URL : String)
    (pps : List (String × String))
    (hok : ∀ p ∈ pps, p.1.data ≠ [] ∧ '?' ∉ p.1.data) :
    buildFinalURL URL [] pps =
        pps.foldl (fun u p => goReplaceAll u p.1.data (QueryEscape p.2.data))
          (URL.data ++ ['?'])
    ∧ (buildFinalURL URL [] pps).getLast? = some '?' := by
  refine ⟨rfl, ?_⟩
  obtain ⟨w, hw⟩ := foldl_replace_keeps_last pps URL.data hok
  have hb : buildFinalURL URL [] pps = w ++ ['?'] := hw
  rw [hb, List.getLast?_concat]

/-- Witness for C10 on a concrete URL and ordinary path parameter. -/
theorem c10_witness :
    (∀ p ∈ ([(":id", "v")] : List (String × String)), p.1.data ≠ [] ∧ '?' ∉ p.1.data)
    ∧ (buildFinalURL "http://h/:id" [] [(":id", "v")] =
        [(":id", "v")].foldl (fun u p => goReplaceAll u p.1.data (QueryEscape p.2.data))
          ("http://h/:id".data ++ ['?'])
      ∧ (buildFinalURL "http://h/:id" [] [(":id", "v")]).getLast? = some '?') :=
  ⟨by decide,
    c10_question_mark_before_substitution "http://h/:id" [(":id", "v")] (by decide)⟩

end GoUtil
